import Mathlib

/-!
Verification development for the numo text-line calculator.

The program preprocesses each input line (variable/alias substitution, see
`src/src/numo/infrastructure/managers/variable_manager.py`), then dispatches it
through an ordered list of runners (`src/src/application/numo.py`); the
arithmetic runners are `src/src/numo/infrastructure/runners/math_runner.py`
(AST-validated evaluation) and the legacy
`src/src/infrastructure/runners/math_runner.py` (raw `eval`).

Modelling conventions, used throughout:
* Python doubles are modelled as exact rationals (`ℚ`).  All concrete inputs
  appearing in theorems evaluate exactly in double precision, so the model and
  the doubles agree there; rounding of inexact intermediate results is outside
  the model.
* CPython's expression parser is modelled for the arithmetic fragment the
  program's whitelist is about: numeric literals (integer and decimal forms,
  without exponent/underscore notation), identifiers, the keyword constants
  `True`/`False`/`None`, calls, parentheses, unary `+`/`-`, and the binary
  operators `+ - * / % ** ^` (Python parses `^` as bitwise xor), with Python's
  precedence and associativity.  A multi-digit integer literal with a leading
  zero is rejected, as in Python.  Inputs outside this fragment fail to parse
  in the model.  CPython's full grammar is wider (exponent and underscore
  literal forms, strings, comparisons, ...): no theorem in this file evaluates
  such an input, and universally quantified statements about runner results
  range over the modelled fragment's successes.
* Fallible Python operations are threaded through `Except PyErr`; a `try`
  block catching exceptions becomes a `match` on the `Except` value.
-/

set_option maxRecDepth 16000

/-- Exact rational numbers as executable numerator/denominator pairs: the
model of Python doubles.  (Mathlib's `ℚ` is not kernel-reducible, so the
evaluator computes on `MQ` and the order/algebra lemmas go through the
value map `MQ.toRat`.)  The denominator is kept positive by every operation
below; operations normalize, so values reachable from literals are in lowest
terms with a positive denominator. -/
structure MQ where
  num : Int
  den : Nat
deriving DecidableEq, Repr

/-- Lowest-terms normalization by the gcd of numerator and denominator. -/
def MQ.norm (q : MQ) : MQ :=
  let g := Nat.gcd q.num.natAbs q.den
  ⟨q.num / (g : Int), q.den / g⟩

/-- Embed an integer. -/
def MQ.ofInt (n : Int) : MQ := ⟨n, 1⟩

/-- Exact addition. -/
def MQ.add (a b : MQ) : MQ :=
  MQ.norm ⟨a.num * (b.den : Int) + b.num * (a.den : Int), a.den * b.den⟩

/-- Exact subtraction. -/
def MQ.sub (a b : MQ) : MQ :=
  MQ.norm ⟨a.num * (b.den : Int) - b.num * (a.den : Int), a.den * b.den⟩

/-- Exact multiplication. -/
def MQ.mul (a b : MQ) : MQ := MQ.norm ⟨a.num * b.num, a.den * b.den⟩

/-- Negation. -/
def MQ.neg (a : MQ) : MQ := ⟨-a.num, a.den⟩

/-- Exact division by a nonzero value: invert the divisor, moving its sign
to the numerator so the denominator stays positive. -/
def MQ.div (a b : MQ) : MQ :=
  if b.num < 0 then MQ.norm ⟨-(a.num * (b.den : Int)), a.den * b.num.natAbs⟩
  else MQ.norm ⟨a.num * (b.den : Int), a.den * b.num.natAbs⟩

/-- Strict order by cross-multiplication (denominators are positive). -/
def MQ.flt (a b : MQ) : Prop := a.num * (b.den : Int) < b.num * (a.den : Int)

instance (a b : MQ) : Decidable (a.flt b) := by unfold MQ.flt; infer_instance

/-- Floor of the represented value: Euclidean division of the numerator by
the (positive) denominator. -/
def MQ.floorQ (q : MQ) : Int := q.num / (q.den : Int)

/-- `n`-th power for a natural exponent, componentwise (exact). -/
def MQ.npow (a : MQ) (n : Nat) : MQ := MQ.norm ⟨a.num ^ n, a.den ^ n⟩

/-- Integer power: negative exponents invert (callers exclude zero bases). -/
def MQ.powInt (a : MQ) (n : Int) : MQ :=
  if 0 ≤ n then a.npow n.toNat
  else MQ.div (MQ.ofInt 1) (a.npow (-n).toNat)

/-- The represented rational value (used by the order/algebra lemmas). -/
def MQ.toRat (q : MQ) : ℚ := (q.num : ℚ) / (q.den : ℚ)

/-- Positivity of the denominator: the representation invariant. -/
def MQ.wf (q : MQ) : Prop := 0 < q.den

/-- Python constant payloads that `ast.parse` can place in an `ast.Constant`
node for the modelled fragment: integer literals, float literals, and the
keyword constants `True`, `False`, `None`. -/
inductive PyConst where
  | cint (n : Int)
  | cfloat (q : MQ)
  | cbool (b : Bool)
  | cnone
deriving DecidableEq, Repr

/-- Binary operator nodes of the modelled fragment.  Note that Python parses
the surface token `^` as `bitxor`, not as exponentiation (`**` is `pow`). -/
inductive PyBinop where
  | add | sub | mult | div | pow | mod | bitxor
deriving DecidableEq, Repr

/-- Unary operator nodes: `USub` for `-`, `UAdd` for `+`. -/
inductive PyUnop where
  | usub | uadd
deriving DecidableEq, Repr

/-- The body of an `ast.Expression` for the modelled fragment. -/
inductive PyExpr where
  | const (c : PyConst)
  | name (s : String)
  | call (f : PyExpr) (args : List PyExpr)
  | binop (op : PyBinop) (l r : PyExpr)
  | unop (op : PyUnop) (e : PyExpr)
deriving Repr

/-- Exception kinds raised by the modelled Python code.  `unmodeled` marks
operations whose CPython result lies outside the rational model (irrational
powers, bitwise xor, builtin objects other than the ones modelled); no theorem
in this file asserts anything about an input that reaches `unmodeled`. -/
inductive PyErr where
  | zeroDiv | valueErr | typeErr | nameErr | unmodeled
deriving DecidableEq, Repr

/-! ### Lexer for the modelled CPython expression fragment -/

/-- Token stream elements: constants, identifiers, operator/punctuation. -/
inductive Tok where
  | tconst (c : PyConst)
  | tid (s : String)
  | top (s : String)
deriving DecidableEq, Repr

/-- Decimal value of a digit list (most significant first). -/
def digitsToNat (ds : List Char) : Nat :=
  ds.foldl (fun a c => a * 10 + (c.toNat - 48)) 0

/-- A word character for identifier tokens: letter, digit or underscore. -/
def isWordChar (c : Char) : Bool :=
  c.isAlpha || c.isDigit || c.toNat == 95

/-- Map a lexed identifier to its token; the keyword constants `True`,
`False` and `None` lex to constant tokens (CPython parses them as
`ast.Constant`). -/
def identTok (s : String) : Tok :=
  if s = "True" then .tconst (.cbool true)
  else if s = "False" then .tconst (.cbool false)
  else if s = "None" then .tconst .cnone
  else .tid s

/-- Lex a numeric literal given the digits before a possible decimal point
and the rest of the input; returns the token and the remaining characters.
Python accepts `5`, `5.`, `5.25`; the fractional part may be empty. -/
def lexNum (intDs : List Char) (rest : List Char) : Tok × List Char :=
  match rest with
  | '.' :: rest1 =>
    let fracDs := rest1.takeWhile Char.isDigit
    let rest2 := rest1.dropWhile Char.isDigit
    let scale := 10 ^ fracDs.length
    let v := MQ.norm ⟨(digitsToNat intDs * scale + digitsToNat fracDs : Nat), scale⟩
    (.tconst (.cfloat v), rest2)
  | _ => (.tconst (.cint (digitsToNat intDs : Int)), rest)

/-- Fuel-indexed lexer over the character list; `none` on a character outside
the modelled fragment (CPython may still lex such inputs; every such input is
outside the scope of the theorems below, see the module comment). -/
def lexToks : Nat → List Char → Option (List Tok)
  | 0, _ => none
  | _ + 1, [] => some []
  | fuel + 1, c :: cs =>
    if c = ' ' || c = '\t' then lexToks fuel cs
    else if c.isDigit then
      let ds := (c :: cs).takeWhile Char.isDigit
      let rest := (c :: cs).dropWhile Char.isDigit
      let isFloat := match rest with
        | '.' :: _ => true
        | _ => false
      if !isFloat && c.toNat == 48 && ds.any (fun d => !(d.toNat == 48)) then none
      else
        let (t, rest2) := lexNum ds rest
        match lexToks fuel rest2 with
        | some ts => some (t :: ts)
        | none => none
    else if c = '.' then
      match cs with
      | d :: _ =>
        if d.isDigit then
          let (t, rest2) := lexNum [] (c :: cs)
          match lexToks fuel rest2 with
          | some ts => some (t :: ts)
          | none => none
        else none
      | [] => none
    else if c.isAlpha || c.toNat == 95 then
      let w := (c :: cs).takeWhile isWordChar
      let rest := (c :: cs).dropWhile isWordChar
      match lexToks fuel rest with
      | some ts => some (identTok (String.mk w) :: ts)
      | none => none
    else if c = '*' then
      match cs with
      | '*' :: cs2 =>
        match lexToks fuel cs2 with
        | some ts => some (.top "**" :: ts)
        | none => none
      | _ =>
        match lexToks fuel cs with
        | some ts => some (.top "*" :: ts)
        | none => none
    else if c = '+' || c = '-' || c = '/' || c = '%' || c = '^' ||
            c = '(' || c = ')' || c = ',' || c = '=' || c = ':' then
      match lexToks fuel cs with
      | some ts => some (.top (String.mk [c]) :: ts)
      | none => none
    else none

/-- Lex a source string (fuel is one step per character plus one for the
final empty case; every lexer step consumes at least one character). -/
def pyLex (s : String) : Option (List Tok) :=
  lexToks (s.data.length + 1) s.data

/-! ### Parser for the modelled CPython expression grammar

Precedence (loosest to tightest), as in CPython for this fragment:
`^` (xor) < `+ -` < `* / %` < unary `+ -` < `**` (right-associative,
its right operand is again a unary-level term).  Calls bind tightest. -/

/-- Parser modes, one per grammar level; the `Rest` modes carry the left
operand of a left-associative chain. -/
inductive PMode where
  | mexpr
  | mexprRest (l : PyExpr)
  | marith
  | marithRest (l : PyExpr)
  | mterm
  | mtermRest (l : PyExpr)
  | mfactor
  | mpow
  | matom
  | mtrail (e : PyExpr)
  | margs

/-- Parser results: an expression, or an argument list of a call. -/
inductive PRes where
  | rexpr (e : PyExpr)
  | rargs (es : List PyExpr)

/-- Fuel-indexed recursive-descent parser; structurally recursive on fuel so
all concrete runs reduce definitionally. -/
def parseStep : Nat → PMode → List Tok → Option (PRes × List Tok)
  | 0, _, _ => none
  | fuel + 1, mode, ts =>
    match mode with
    | .mexpr =>
      match parseStep fuel .marith ts with
      | some (.rexpr l, ts1) => parseStep fuel (.mexprRest l) ts1
      | _ => none
    | .mexprRest l =>
      match ts with
      | .top "^" :: ts1 =>
        match parseStep fuel .marith ts1 with
        | some (.rexpr r, ts2) => parseStep fuel (.mexprRest (.binop .bitxor l r)) ts2
        | _ => none
      | _ => some (.rexpr l, ts)
    | .marith =>
      match parseStep fuel .mterm ts with
      | some (.rexpr l, ts1) => parseStep fuel (.marithRest l) ts1
      | _ => none
    | .marithRest l =>
      match ts with
      | .top "+" :: ts1 =>
        match parseStep fuel .mterm ts1 with
        | some (.rexpr r, ts2) => parseStep fuel (.marithRest (.binop .add l r)) ts2
        | _ => none
      | .top "-" :: ts1 =>
        match parseStep fuel .mterm ts1 with
        | some (.rexpr r, ts2) => parseStep fuel (.marithRest (.binop .sub l r)) ts2
        | _ => none
      | _ => some (.rexpr l, ts)
    | .mterm =>
      match parseStep fuel .mfactor ts with
      | some (.rexpr l, ts1) => parseStep fuel (.mtermRest l) ts1
      | _ => none
    | .mtermRest l =>
      match ts with
      | .top "*" :: ts1 =>
        match parseStep fuel .mfactor ts1 with
        | some (.rexpr r, ts2) => parseStep fuel (.mtermRest (.binop .mult l r)) ts2
        | _ => none
      | .top "/" :: ts1 =>
        match parseStep fuel .mfactor ts1 with
        | some (.rexpr r, ts2) => parseStep fuel (.mtermRest (.binop .div l r)) ts2
        | _ => none
      | .top "%" :: ts1 =>
        match parseStep fuel .mfactor ts1 with
        | some (.rexpr r, ts2) => parseStep fuel (.mtermRest (.binop .mod l r)) ts2
        | _ => none
      | _ => some (.rexpr l, ts)
    | .mfactor =>
      match ts with
      | .top "-" :: ts1 =>
        match parseStep fuel .mfactor ts1 with
        | some (.rexpr e, ts2) => some (.rexpr (.unop .usub e), ts2)
        | _ => none
      | .top "+" :: ts1 =>
        match parseStep fuel .mfactor ts1 with
        | some (.rexpr e, ts2) => some (.rexpr (.unop .uadd e), ts2)
        | _ => none
      | _ => parseStep fuel .mpow ts
    | .mpow =>
      match parseStep fuel .matom ts with
      | some (.rexpr b, ts1) =>
        match ts1 with
        | .top "**" :: ts2 =>
          match parseStep fuel .mfactor ts2 with
          | some (.rexpr e, ts3) => some (.rexpr (.binop .pow b e), ts3)
          | _ => none
        | _ => some (.rexpr b, ts1)
      | _ => none
    | .matom =>
      match ts with
      | .tconst c :: ts1 => parseStep fuel (.mtrail (.const c)) ts1
      | .tid s :: ts1 => parseStep fuel (.mtrail (.name s)) ts1
      | .top "(" :: ts1 =>
        match parseStep fuel .mexpr ts1 with
        | some (.rexpr e, .top ")" :: ts2) => parseStep fuel (.mtrail e) ts2
        | _ => none
      | _ => none
    | .mtrail e =>
      match ts with
      | .top "(" :: .top ")" :: ts1 => parseStep fuel (.mtrail (.call e [])) ts1
      | .top "(" :: ts1 =>
        match parseStep fuel .margs ts1 with
        | some (.rargs args, .top ")" :: ts2) => parseStep fuel (.mtrail (.call e args)) ts2
        | _ => none
      | _ => some (.rexpr e, ts)
    | .margs =>
      match parseStep fuel .mexpr ts with
      | some (.rexpr e, .top "," :: ts1) =>
        match parseStep fuel .margs ts1 with
        | some (.rargs rest, ts2) => some (.rargs (e :: rest), ts2)
        | _ => none
      | some (.rexpr e, ts1) => some (.rargs [e], ts1)
      | _ => none

/-- Model of `ast.parse(source, mode="eval")` restricted to the fragment:
lex, parse a full expression, require the whole token stream consumed. -/
def pyParse (s : String) : Option PyExpr :=
  match pyLex s with
  | none => none
  | some ts =>
    match parseStep (8 * ts.length + 8) .mexpr ts with
    | some (.rexpr e, []) => some e
    | _ => none

/-! ### The AST-validated math runner
(`src/src/numo/infrastructure/runners/math_runner.py`) -/

/-- `MathRunner._is_safe_ast`'s allowed-tuple membership for binary operator
nodes: `Add Sub Mult Div Pow Mod` are in the tuple, `BitXor` is not. -/
def binopAllowed : PyBinop → Bool
  | .add | .sub | .mult | .div | .pow | .mod => true
  | .bitxor => false

/-- Allowed-tuple membership for unary operator nodes: `USub` is in the
tuple, `UAdd` is not. -/
def unopAllowed : PyUnop → Bool
  | .usub => true
  | .uadd => false

/-- `MathRunner._is_safe_ast` on a node at the given depth: reject when the
depth exceeds 20, when the node kind is outside the allowed tuple (constants,
binary/unary operations with allowed operators), and recursively check all
children at depth + 1.  An operator child node's own depth check is subsumed
by the operand children, which sit at the same depth. -/
def isSafeAst : PyExpr → Nat → Bool
  | .const _, d => decide (d ≤ 20)
  | .name _, _ => false
  | .call _ _, _ => false
  | .binop op l r, d => decide (d ≤ 20) && binopAllowed op && isSafeAst l (d + 1) && isSafeAst r (d + 1)
  | .unop op e, d => decide (d ≤ 20) && unopAllowed op && isSafeAst e (d + 1)

/-- `MathRunner.run` calls `_is_safe_ast` on the `ast.Expression` wrapper at
depth 0 (always within bounds); the expression body sits at depth 1. -/
def isSafeRoot (e : PyExpr) : Bool := isSafeAst e 1

/-- `float(node.n)` on a constant payload: ints and floats coerce to their
value, `True`/`False` to 1/0, `float(None)` raises `TypeError`. -/
def pyFloatCoerce : PyConst → Except PyErr MQ
  | .cint n => .ok (MQ.ofInt n)
  | .cfloat q => .ok q
  | .cbool b => .ok (MQ.ofInt (if b then 1 else 0))
  | .cnone => .error .typeErr

/-- Python float `**`: `0.0` to a negative power raises `ZeroDivisionError`;
integer exponents are exact in the rational model; a fractional exponent
leaves the rational model (CPython returns an irrational float, or a complex
number for a negative base) and is marked `unmodeled`. -/
def pypow (a b : MQ) : Except PyErr MQ :=
  if b.den = 1 then
    if a.num = 0 ∧ b.num < 0 then .error .zeroDiv
    else .ok (a.powInt b.num)
  else .error .unmodeled

/-- Python float `%` (for a nonzero divisor): `a - b * floor(a / b)`, the
floored modulo whose result carries the sign of the divisor. -/
def pymod (a b : MQ) : MQ := a.sub (b.mul (MQ.ofInt (MQ.floorQ (a.div b))))

/-- `MathRunner._evaluate_node`: constants coerce through `float`, binary
operations evaluate both operands, apply the exponent-magnitude guard
(`right > 100 or right < -100` raises `ValueError`, checked only for `Pow`,
before the operator lookup), then dispatch through the `OPERATORS` table
(`BitXor` is absent from the table, so its lookup yields `None` and a
`ValueError`); unary minus negates; any other node raises `ValueError`.
Division and modulo by exactly zero raise `ZeroDivisionError`. -/
def evaluateNode : PyExpr → Except PyErr MQ
  | .const c => pyFloatCoerce c
  | .binop op l r => do
    let a ← evaluateNode l
    let b ← evaluateNode r
    if op = .pow ∧ ((MQ.ofInt 100).flt b ∨ b.flt (MQ.ofInt (-100))) then .error .valueErr
    else
      match op with
      | .add => .ok (a.add b)
      | .sub => .ok (a.sub b)
      | .mult => .ok (a.mul b)
      | .div => if b.num = 0 then .error .zeroDiv else .ok (a.div b)
      | .mod => if b.num = 0 then .error .zeroDiv else .ok (pymod a b)
      | .pow => pypow a b
      | .bitxor => .error .valueErr
  | .unop .usub e => do
    let v ← evaluateNode e
    .ok v.neg
  | .unop .uadd _ => .error .valueErr
  | .name _ => .error .valueErr
  | .call _ _ => .error .valueErr

/-- `MathRunner._is_valid_number` on the exact value `num/den` (den positive):
not NaN (vacuous for rationals), magnitude at most `1e308`
(`|num| ≤ 10^308 * den`), and magnitude at least `1e-308` unless the value is
zero (`den ≤ 10^308 * |num|`).  The bounds `1e308`/`1e-308` are taken at
their decimal values; the nearest doubles differ only in digits beyond the
model's concern. -/
def isValidNumber (q : MQ) : Bool :=
  decide (q.num.natAbs ≤ 10 ^ 308 * q.den) &&
    (decide (q.den ≤ 10 ^ 308 * q.num.natAbs) || decide (q.num = 0))

/-- Strip trailing `'0'` characters. -/
def stripTrailZeros (l : List Char) : List Char :=
  (l.reverse.dropWhile (fun c => c.toNat == 48)).reverse

/-- Python `str()` of a nonnegative integral double of magnitude at least
`1e16`: shortest significant digits, a decimal point only if more than one
significant digit remains, and a two-or-more-digit exponent `e+NN`. -/
def sciOfNat (n : Nat) : String :=
  let ds := (toString n).data
  let sig := stripTrailZeros ds
  let headD := String.mk (sig.take 1)
  let tailD := sig.drop 1
  (if tailD.isEmpty then headD else headD ++ "." ++ String.mk tailD) ++
    "e+" ++ toString (ds.length - 1)

/-- Python `str()` of a finite double, modelled exactly on the integral
values this development evaluates: integral values of magnitude below `1e16`
render as the digits followed by `".0"`; integral values of magnitude at
least `1e16` render in scientific notation (CPython switches to the `e+NN`
form there; it prints the shortest round-trip digits, which coincide with
the exact digits for every value a theorem below evaluates, such as `10^16`
with mantissa `1`, and in general the `e+` form never carries a trailing
`".0"`).  Non-integral rationals fall outside the shortest-round-trip repr
of doubles and are rendered with a `~` marker; no theorem asserts a concrete
rendering for them. -/
def pyFloatStr (q : MQ) : String :=
  if q.den = 1 then
    let sign := if q.num < 0 then "-" else ""
    let m := q.num.natAbs
    if m < 10 ^ 16 then sign ++ toString m ++ ".0"
    else sign ++ sciOfNat m
  else "~" ++ toString q.num ++ "/" ++ toString q.den

/-- The post-parse portion of `MathRunner.run`: validate the tree with
`_is_safe_ast`, evaluate it (exceptions become `None` via the `try` block),
check `_is_valid_number` (the `isinstance` check always holds: the evaluator
returns floats), and stringify. -/
def mathRunAst (e : PyExpr) : Option String :=
  if isSafeRoot e then
    match evaluateNode e with
    | .error _ => none
    | .ok q => if isValidNumber q then some (pyFloatStr q) else none
  else none

/-- `MathRunner.run` (`src/src/numo/infrastructure/runners/math_runner.py`):
reject empty input and input longer than 1000 characters, parse in eval mode
(a `SyntaxError` is caught, yielding `None`), then validate and evaluate. -/
def mathRun (s : String) : Option String :=
  if s.isEmpty then none
  else if s.length > 1000 then none
  else
    match pyParse s with
    | none => none
    | some e => mathRunAst e

/-- Modelled from the spec: the Safe Evaluator's surface grammar (§4.4 step 2)
treats `^` as right-associative exponentiation.  The code under `src/` that
realizes this mapping is not present (the `src.numo` package glue exercised by
`src/tests/test_numo.py`, which asserts that `"2 ^ 3"` evaluates to 8, is not
under `src/`; the `MathRunner` itself receives `**`-form text, since Python
parses a bare `^` as bitwise xor, which the whitelist rejects).  The mapping
is modelled as rewriting `^` to `**` before the runner, which yields exactly
the spec's grammar: right-associative exponentiation below unary minus. -/
def caretToPow (s : String) : String :=
  String.mk (s.data.foldr (fun c acc => if c = '^' then '*' :: '*' :: acc else c :: acc) [])

/-- The spec's Safe Evaluator: the `^`-as-exponentiation surface mapping
composed with `MathRunner.run` (see `caretToPow`). -/
def specEvaluate (s : String) : Option String :=
  mathRun (caretToPow s)

/-- The restricted arithmetic grammar named by the specification: numeric
literals, parentheses, unary minus, and the binary operators
`+ - * / ^ %` with `^` read as exponentiation. -/
def grammarOk : PyExpr → Bool
  | .const (.cint _) => true
  | .const (.cfloat _) => true
  | .const _ => false
  | .unop .usub e => grammarOk e
  | .unop .uadd _ => false
  | .binop .bitxor _ _ => false
  | .binop _ l r => grammarOk l && grammarOk r
  | .name _ => false
  | .call _ _ => false

/-- Whether an input string conforms to the spec's restricted arithmetic
grammar: it parses (with `^` read as exponentiation) and every node of the
parse is in the whitelist. -/
def conformsToGrammar (s : String) : Bool :=
  match pyParse (caretToPow s) with
  | some e => grammarOk e
  | none => false

/-! ### The variable manager
(`src/src/numo/infrastructure/managers/variable_manager.py`)

A Python `dict` is modelled as an insertion-ordered association list with
unique keys: update-in-place on an existing key, append otherwise. -/

/-- The `_variables` dictionary. -/
abbrev Store : Type := List (String × String)

/-- `dict.get`: the value at the first (unique) matching key. -/
def dictGet : Store → String → Option String
  | [], _ => none
  | (k0, v0) :: rest, k => if k0 = k then some v0 else dictGet rest k

/-- `dict[k] = v`: update in place if the key exists, else append. -/
def dictSet : Store → String → String → Store
  | [], k, v => [(k, v)]
  | (k0, v0) :: rest, k, v =>
    if k0 = k then (k0, v) :: rest else (k0, v0) :: dictSet rest k v

/-- ASCII lower-casing of one character (Python `str.lower()`, modelled over
ASCII; the inputs considered are ASCII). -/
def charLower (c : Char) : Char :=
  if 65 ≤ c.toNat ∧ c.toNat ≤ 90 then Char.ofNat (c.toNat + 32) else c

/-- Python `str.lower()`. -/
def strLower (s : String) : String := String.mk (s.data.map charLower)

/-- Python `str.strip()`: drop surrounding whitespace. -/
def strTrim (s : String) : String :=
  String.mk (((s.data.dropWhile Char.isWhitespace).reverse.dropWhile Char.isWhitespace).reverse)

/-- Python `c in s` for a single character. -/
def containsChar (s : String) (c : Char) : Bool :=
  s.data.any (fun d => d = c)

/-- Split a character list at the first occurrence of `sep`; `none` when
`sep` does not occur. -/
def breakAtChar (sep : Char) : List Char → Option (List Char × List Char)
  | [] => none
  | c :: cs =>
    if c = sep then some ([], cs)
    else
      match breakAtChar sep cs with
      | some (a, b) => some (c :: a, b)
      | none => none

/-- Python `s.split(sep, 1)` for a single-character separator, viewed as an
optional split at the first occurrence (`none` when `sep` does not occur;
Python then returns a one-element list, failing the `len(parts) != 2`
check). -/
def splitOnceChar (s : String) (sep : Char) : Option (String × String) :=
  match breakAtChar sep s.data with
  | some (a, b) => some (String.mk a, String.mk b)
  | none => none

/-- Accumulating worker for whitespace tokenization. -/
def splitWsAux : List Char → List Char → List String
  | [], acc => if acc.isEmpty then [] else [String.mk acc.reverse]
  | c :: cs, acc =>
    if c.isWhitespace then
      if acc.isEmpty then splitWsAux cs []
      else String.mk acc.reverse :: splitWsAux cs []
    else splitWsAux cs (c :: acc)

/-- `VariableManager.OPERATOR_ALIASES`, in source order. -/
def OPERATOR_ALIASES : List (String × List String) :=
  [("+", ["plus", "add"]),
   ("-", ["minus", "subtract"]),
   ("*", ["multiply", "times"]),
   ("/", ["divide", "division"]),
   ("%", ["mod", "modulus"]),
   ("^", ["power", "exponent"])]

/-- One step of `_initialize_operators`: store the operator under itself,
then each alias (lower-cased) under the operator. -/
def seedOperatorEntry (st : Store) (entry : String × List String) : Store :=
  entry.2.foldl (fun s a => dictSet s (strLower a) entry.1) (dictSet st entry.1 entry.1)

/-- The store built by `VariableManager.__init__`. -/
def initialVariables : Store :=
  OPERATOR_ALIASES.foldl seedOperatorEntry []

/-- `_validate_variable_name`: non-empty, `str.isalnum()`, and the first
character alphabetic (modelled over ASCII; the inputs considered are
ASCII). -/
def validateVariableName (name : String) : Bool :=
  !name.isEmpty && name.data.all Char.isAlphanum &&
    (match name.data with
     | c :: _ => c.isAlpha
     | [] => false)

/-- Python `str.split()` with no argument: split on whitespace runs,
dropping empty pieces. -/
def pySplitWs (s : String) : List String :=
  splitWsAux s.data []

/-- `_replace_variable_references`: tokenize on whitespace, replace each
token whose lower-cased form is a stored key by the stored value, and rejoin
with single spaces. -/
def replaceVariableReferences (st : Store) (source : String) : String :=
  String.intercalate " "
    ((pySplitWs source).map (fun t =>
      match dictGet st (strLower t) with
      | some v => v
      | none => t))

/-- `_process_variable_definition`: split once on `:` when present, else
once on `=`; with exactly two parts and a valid left-hand name, substitute
references in the right-hand side, store it under the lower-cased name, and
return the reconstructed `"<name> = <value>"` marked as a definition;
otherwise return the source unchanged, not a definition.  The result triple
is (processed source, updated store, is-definition). -/
def processVariableDefinition (st : Store) (source : String) :
    String × Store × Bool :=
  let parts := if containsChar source ':' then splitOnceChar source ':' else splitOnceChar source '='
  match parts with
  | none => (source, st, false)
  | some (p0, p1) =>
    let name := strTrim p0
    let value := strTrim p1
    if validateVariableName name then
      let processedValue := replaceVariableReferences st value
      (name ++ " = " ++ processedValue, dictSet st (strLower name) processedValue, true)
    else (source, st, false)

/-- `VariableManager.build`: empty input yields empty output; otherwise trim,
handle a definition (which updates the store), else substitute references. -/
def numoBuild (st : Store) (source : String) : String × Store :=
  if source.isEmpty then ("", st)
  else
    let t := strTrim source
    match processVariableDefinition st t with
    | (out, st2, true) => (out, st2)
    | (_, _, false) => (replaceVariableReferences st t, st)

/-- `VariableManager.add_variable`: validate, then store under the
lower-cased name; returns the updated store and the success flag. -/
def addVariable (st : Store) (name value : String) : Store × Bool :=
  if validateVariableName name then (dictSet st (strLower name) value, true)
  else (st, false)

/-- `VariableManager.get_variable`: case-insensitive lookup. -/
def getVariable (st : Store) (name : String) : Option String :=
  dictGet st (strLower name)

/-- Membership of a value in `OPERATOR_ALIASES.keys()`
(`any(value == op for op in self.OPERATOR_ALIASES.keys())`). -/
def isOperatorValue (v : String) : Bool :=
  OPERATOR_ALIASES.any (fun p => v = p.1)

/-- `VariableManager.clear_variables`: rebuild the store keeping exactly the
entries whose value is one of the canonical operator symbols. -/
def clearVariables (st : Store) : Store :=
  st.filter (fun e => isOperatorValue e.2)


/-! ### The legacy eval-based math runner
(`src/src/infrastructure/runners/math_runner.py`)

Its `run` method passes the raw line to Python's `eval` with full builtins
and stringifies whatever comes back; its validation and sandboxing helpers
(`_validate_mathematical_expression`, `_prepare_expression`,
`_evaluate_expression`) are never called.  `eval` is modelled on the value
fragment the theorems exercise: int/float arithmetic, and the builtin `abs`
applied to a literal.  Constructs whose CPython value falls outside this
fragment map to `PyErr.unmodeled`; no theorem asserts anything about them. -/

/-- Python runtime values of the modelled `eval` fragment. -/
inductive PyVal where
  | vint (n : Int)
  | vfloat (q : MQ)
  | vbool (b : Bool)
deriving DecidableEq, Repr

/-- Numeric view of a value: (is-float, exact value); `bool` counts as int
(it is an `int` subtype in Python). -/
def pyNumOf : PyVal → Option (Bool × MQ)
  | .vint n => some (false, MQ.ofInt n)
  | .vbool b => some (false, MQ.ofInt (if b then 1 else 0))
  | .vfloat q => some (true, q)

/-- Package a numeric result: a float stays a float; an int-typed result is
an exact integer (`den = 1` by construction at every use site). -/
def pyMkNum (isFloat : Bool) (q : MQ) : PyVal :=
  if isFloat then .vfloat q else .vint q.num

/-- Binary arithmetic of the `eval` fragment, with Python's type rules:
`int op int` stays `int` for `+ - * %` and nonnegative `**`; `/` always
yields a float; division and modulo by zero raise; `^` (bitwise xor) and any
operation on. a non-numeric operand are outside the fragment. -/
def pyEvalBin (op : PyBinop) (x y : PyVal) : Except PyErr PyVal :=
  match pyNumOf x, pyNumOf y with
  | some (fx, a), some (fy, b) =>
    let isF := fx || fy
    match op with
    | .add => .ok (pyMkNum isF (a.add b))
    | .sub => .ok (pyMkNum isF (a.sub b))
    | .mult => .ok (pyMkNum isF (a.mul b))
    | .div => if b.num = 0 then .error .zeroDiv else .ok (.vfloat (a.div b))
    | .mod => if b.num = 0 then .error .zeroDiv else .ok (pyMkNum isF (pymod a b))
    | .pow =>
      if b.den = 1 then
        if a.num = 0 ∧ b.num < 0 then .error .zeroDiv
        else .ok (pyMkNum (isF || decide (b.num < 0)) (a.powInt b.num))
      else .error .unmodeled
    | .bitxor => .error .unmodeled
  | _, _ => .error .unmodeled

/-- The modelled fragment of `eval(source)` on a parsed expression:
constants, unary sign, binary arithmetic, and `abs` of a literal.  An
undefined bare name raises `NameError`; builtin objects themselves and other
calls are outside the fragment. -/
def pyEvalOld : PyExpr → Except PyErr PyVal
  | .const (.cint n) => .ok (.vint n)
  | .const (.cfloat q) => .ok (.vfloat q)
  | .const (.cbool b) => .ok (.vbool b)
  | .const .cnone => .error .unmodeled
  | .unop .usub e => do
    match pyNumOf (← pyEvalOld e) with
    | some (f, a) => .ok (pyMkNum f a.neg)
    | none => .error .typeErr
  | .unop .uadd e => do
    match pyNumOf (← pyEvalOld e) with
    | some (f, a) => .ok (pyMkNum f a)
    | none => .error .typeErr
  | .binop op l r => do
    let x ← pyEvalOld l
    let y ← pyEvalOld r
    pyEvalBin op x y
  | .name _ => .error .unmodeled
  | .call (.name f) [.const c] =>
    if f = "abs" then
      match c with
      | .cint n => .ok (.vint (n.natAbs : Int))
      | .cfloat q => .ok (.vfloat ⟨(q.num.natAbs : Int), q.den⟩)
      | .cbool b => .ok (.vint (if b then 1 else 0))
      | .cnone => .error .typeErr
    else .error .unmodeled
  | .call _ _ => .error .unmodeled

/-- Python `str()` of a value of the fragment. -/
def pyStrVal : PyVal → String
  | .vint n => toString n
  | .vfloat q => pyFloatStr q
  | .vbool b => if b then "True" else "False"

/-- The legacy `MathRunner.run`
(`src/src/infrastructure/runners/math_runner.py`, lines 10-15): evaluate the
raw source with `eval` and stringify, any exception yields `None`.  There is
no validation of any kind before `eval`. -/
def oldMathRun (s : String) : Option String :=
  match pyParse s with
  | none => none
  | some e =>
    match pyEvalOld e with
    | .error _ => none
    | .ok v => some (pyStrVal v)

/-! ### The variable runner
(`src/src/infrastructure/runners/variable_runner.py`) -/

/-- `re.match` for the pattern `(\w+)\s*[:=]\s*([^\s]+)` (anchored at the
start, trailing input ignored): a word-character run, optional spaces, one
of `:`/`=`, optional spaces, a nonspace run; returns group 2.  The character
classes are disjoint, so the greedy matching modelled here coincides with
the regex engine's backtracking search. -/
def variableRunMatch (s : String) : Option String :=
  let cs := s.data
  let w := cs.takeWhile isWordChar
  let rest := (cs.dropWhile isWordChar).dropWhile (fun c => c.isWhitespace)
  if w.isEmpty then none
  else
    match rest with
    | c :: rest2 =>
      if c = ':' ∨ c = '=' then
        let v := (rest2.dropWhile Char.isWhitespace).takeWhile (fun d => !d.isWhitespace)
        if v.isEmpty then none else some (String.mk v)
      else none
    | [] => none

/-! ### The dispatch pipeline (`src/src/application/numo.py`)

A runner is a function from a preprocessed line to an optional result that
may also raise; `Numo._execute_runners` awaits each runner in order. -/

/-- A handler: `await runner.run(source)` either returns `Optional[str]` or
raises a fault (modelled as the exception's message). -/
abbrev Runner : Type := String → Except String (Option String)

/-- The inner loop of `Numo._execute_runners` for one line: try runners in
order; the first truthy (non-`None`, non-empty) result wins; a raised fault
propagates (there is no `try` in `_execute_runners`). -/
def runLine : List Runner → String → Except String (Option String)
  | [], _ => .ok none
  | r :: rs, s =>
    match r s with
    | .error f => .error f
    | .ok none => runLine rs s
    | .ok (some v) => if v.isEmpty then runLine rs s else .ok (some v)

/-- `Numo._execute_runners`: one result per line; a falsy (empty) line gets
`None` without invoking any runner; a fault raised while processing any line
aborts the whole batch. -/
def executeRunners (runners : List Runner) : List String → Except String (List (Option String))
  | [] => .ok []
  | s :: rest =>
    if s.isEmpty then
      match executeRunners runners rest with
      | .ok t => .ok (none :: t)
      | .error f => .error f
    else
      match runLine runners s with
      | .error f => .error f
      | .ok v =>
        match executeRunners runners rest with
        | .ok t => .ok (v :: t)
        | .error f => .error f

/-- `Numo._preprocess_input_lines`, threading the mutable
`VariableManager` store through the lines in input order.  Modelled from the
spec for the manager list: the spec's preprocessor (§4.3) is exactly the
variable/alias substitution pass; the `FunctionManager` named in
`src/src/application/numo.py` is not under `src/`, and the spec assigns the
core preprocessor no further stage. -/
def preprocessLines (st : Store) : List String → Store × List String
  | [] => (st, [])
  | l :: ls =>
    let (out, st2) := numoBuild st (strTrim l)
    let (stFinal, outs) := preprocessLines st2 ls
    (stFinal, out :: outs)

/-- `Numo.calculate`: preprocess all lines in order, then dispatch each
preprocessed line through the runners. -/
def numoCalculate (runners : List Runner) (st : Store) (lines : List String) :
    Except String (List (Option String)) :=
  executeRunners runners (preprocessLines st lines).2

/-- Modelled from the spec: the network-backed translate/unit/currency
handlers are excluded collaborators ("thin HTTP/API wrappers returning an
optional string given a normalized query"); on lines that do not match their
query shapes (`"text in language"`, `"N unit to unit"`) they decline.  The
lines dispatched in the theorems below are arithmetic/assignment lines, so
these handlers are modelled as declining. -/
def externalStub : Runner := fun _ => .ok none

/-- The legacy math runner as a pipeline handler (its `run` catches every
exception, so it never raises). -/
def oldMathRunner : Runner := fun s => .ok (oldMathRun s)

/-- The variable runner as a pipeline handler (pure pattern match, never
raises). -/
def variableRunner : Runner := fun s => .ok (variableRunMatch s)

/-- The runner list of `Numo.__init__`:
`[TranslateRunner, UnitRunner, CurrencyRunner, MathRunner, VariableRunner]`,
with the three network-backed handlers modelled by `externalStub`. -/
def appRunners : List Runner :=
  [externalStub, externalStub, externalStub, oldMathRunner, variableRunner]

/-- A handler that raises, for exercising the dispatch boundary. -/
def faultyRunner : Runner := fun _ => .error "boom"

/-- A handler that always returns a result, for exercising handler order. -/
def stubResponder : Runner := fun _ => .ok (some "ok")


/-! ### Store lemmas -/

theorem dictGet_dictSet_self (st : Store) (k v : String) :
    dictGet (dictSet st k v) k = some v := by
  induction st with
  | nil => simp [dictSet, dictGet]
  | cons e rest ih =>
    by_cases h : e.1 = k
    · simp [dictSet, dictGet, h]
    · simp [dictSet, dictGet, h, ih]

theorem dictGet_dictSet_ne (st : Store) (k v k2 : String) (h : k ≠ k2) :
    dictGet (dictSet st k v) k2 = dictGet st k2 := by
  induction st with
  | nil => simp [dictSet, dictGet, h]
  | cons e rest ih =>
    by_cases h1 : e.1 = k
    · subst h1
      simp [dictSet, dictGet, h]
    · by_cases h2 : e.1 = k2 <;> simp [dictSet, dictGet, h1, h2, ih, Ne.symm h]

theorem replaceVariableReferences_no_match (st : Store) (s : String)
    (h : ∀ t ∈ pySplitWs s, dictGet st (strLower t) = none) :
    replaceVariableReferences st s = String.intercalate " " (pySplitWs s) := by
  unfold replaceVariableReferences
  congr 1
  calc (pySplitWs s).map (fun t =>
        match dictGet st (strLower t) with
        | some v => v
        | none => t)
      = (pySplitWs s).map id := List.map_congr_left (fun t ht => by simp [h t ht])
    _ = pySplitWs s := List.map_id _

/-! ### Dispatch lemmas -/

theorem runLine_ok (rs : List Runner) (s : String)
    (h : ∀ r ∈ rs, ∃ v, r s = .ok v) : ∃ v, runLine rs s = .ok v := by
  induction rs with
  | nil => exact ⟨none, rfl⟩
  | cons r rest ih =>
    obtain ⟨v, hv⟩ := h r (by simp)
    have ih2 := ih (fun r2 hr2 => h r2 (by simp [hr2]))
    match v, hv with
    | none, hv => simpa [runLine, hv] using ih2
    | some t, hv =>
      by_cases ht : t.isEmpty
      · simpa [runLine, hv, ht] using ih2
      · exact ⟨some t, by simp [runLine, hv, ht]⟩

theorem executeRunners_ok (runners : List Runner) (sources : List String)
    (h : ∀ r ∈ runners, ∀ s, ∃ v, r s = .ok v) :
    ∃ res, executeRunners runners sources = .ok res ∧ res.length = sources.length := by
  induction sources with
  | nil => exact ⟨[], rfl, rfl⟩
  | cons s rest ih =>
    obtain ⟨res, hres, hlen⟩ := ih
    by_cases hs : s.isEmpty
    · exact ⟨none :: res, by simp [executeRunners, hs, hres], by simp [hlen]⟩
    · obtain ⟨v, hv⟩ := runLine_ok runners s (fun r hr => h r hr s)
      exact ⟨v :: res, by simp [executeRunners, hs, hv, hres], by simp [hlen]⟩

theorem preprocessLines_length (ls : List String) (st : Store) :
    (preprocessLines st ls).2.length = ls.length := by
  induction ls generalizing st with
  | nil => rfl
  | cons l rest ih => simp [preprocessLines, ih]

/-! ### Claim theorems -/

/-- C1: the claim that the arithmetic evaluation handler returns a result
only for input inside the restricted arithmetic grammar fails on the legacy
runner: `MathRunner.run` in `src/src/infrastructure/runners/math_runner.py`
passes the raw line to Python `eval` (its sandbox helpers are never called),
so the non-grammar input `abs(5)` — a builtin function call — executes and
returns `"5"`.  The hardened AST runner rejects the same input. -/
theorem c1_eval_runner_executes_beyond_grammar :
    oldMathRun "abs(5)" = some "5" ∧
    conformsToGrammar "abs(5)" = false ∧
    mathRun "abs(5)" = none :=
  ⟨rfl, rfl, rfl⟩

/-- C2 counterexample: with a raising handler followed by a handler that
would return a result, `_execute_runners` propagates the fault: the batch
aborts, the remaining handler is never consulted, and no result list is
produced — contradicting the claim that a raising handler is treated as a
decline with the batch unaffected. -/
theorem c2_fault_aborts_batch_cx :
    executeRunners [faultyRunner, stubResponder] ["1"] = .error "boom" ∧
    stubResponder "1" = .ok (some "ok") ∧
    (¬ ∃ res, executeRunners [faultyRunner, stubResponder] ["1"] = .ok res) :=
  ⟨rfl, rfl, fun ⟨_, h⟩ => by simp [show executeRunners [faultyRunner, stubResponder] ["1"] = .error "boom" from rfl] at h⟩

/-- C2 (amended): `Numo._execute_runners` has no `try` at the dispatch
boundary, so a fault raised by a handler — after any earlier handlers on
that line declined — propagates out of `calculate` and aborts the whole
batch; only a handler that declines without raising (returns `None` or an
empty string) lets dispatch continue to the next handler. -/
theorem c2_fault_propagates_uncaught (pre post : List Runner) (bad : Runner)
    (s f : String) (rest : List String)
    (hs : s.isEmpty = false)
    (hpre : ∀ r ∈ pre, r s = .ok none)
    (hbad : bad s = .error f) :
    runLine (pre ++ bad :: post) s = .error f ∧
    executeRunners (pre ++ bad :: post) (s :: rest) = .error f ∧
    (∀ (r0 : Runner) (rs : List Runner) (t : String),
      r0 t = .ok none → runLine (r0 :: rs) t = runLine rs t) := by
  have h1 : runLine (pre ++ bad :: post) s = .error f := by
    induction pre with
    | nil => simp [runLine, hbad]
    | cons r rest2 ih =>
      have hr : r s = .ok none := hpre r (by simp)
      simpa [runLine, hr] using ih (fun r2 hr2 => hpre r2 (by simp [hr2]))
  refine ⟨h1, ?_, ?_⟩
  · simp [executeRunners, hs, h1]
  · intro r0 rs t h
    simp [runLine, h]

/-- C2 witness. -/
theorem c2_fault_propagates_uncaught_witness :
    runLine [faultyRunner] "2" = .error "boom" ∧
    executeRunners [faultyRunner] ["2", "3"] = .error "boom" ∧
    (∀ (r0 : Runner) (rs : List Runner) (t : String),
      r0 t = .ok none → runLine (r0 :: rs) t = runLine rs t) := by
  have := c2_fault_propagates_uncaught [] [] faultyRunner "2" "boom" ["3"]
    rfl (by intro r hr; simp at hr) rfl
  simpa using this

/-- C6: the safe evaluator is total — every input yields a string or no
result — with division and modulo by zero raising `ZeroDivisionError`
internally (caught at the `run` boundary, never yielding infinity):
`evaluate("1 / 0")` and `evaluate("1 % 0")` are absent. -/
theorem c6_evaluator_never_raises :
    mathRun "1 / 0" = none ∧
    mathRun "1 % 0" = none ∧
    evaluateNode (.binop .div (.const (.cint 1)) (.const (.cint 0))) = .error .zeroDiv ∧
    evaluateNode (.binop .mod (.const (.cint 1)) (.const (.cint 0))) = .error .zeroDiv ∧
    (∀ s, mathRun s = none ∨ ∃ out, mathRun s = some out) := by
  refine ⟨rfl, rfl, rfl, rfl, fun s => ?_⟩
  cases h : mathRun s with
  | none => exact Or.inl rfl
  | some v => exact Or.inr ⟨v, rfl⟩

/-- C8: `clear_variables` keeps exactly the entries whose value is a
canonical operator symbol; concretely, after `define("x", "5")` and a reset,
`x` no longer resolves while every operator and alias entry still resolves
to its canonical operator. -/
theorem c8_reset_preserves_operator_entries :
    (∀ (st : Store) (k v : String),
      (k, v) ∈ clearVariables st ↔ (k, v) ∈ st ∧ isOperatorValue v = true) ∧
    getVariable (clearVariables (addVariable initialVariables "x" "5").1) "x" = none ∧
    (∀ p ∈ OPERATOR_ALIASES, ∀ a ∈ p.2,
      getVariable (clearVariables (addVariable initialVariables "x" "5").1) a = some p.1) ∧
    (∀ p ∈ OPERATOR_ALIASES,
      getVariable (clearVariables (addVariable initialVariables "x" "5").1) p.1 = some p.1) := by
  refine ⟨fun st k v => List.mem_filter, rfl, ?_, ?_⟩
  · decide
  · decide

/-- C8 witness. -/
theorem c8_reset_preserves_operator_entries_witness :
    getVariable (clearVariables (addVariable initialVariables "x" "5").1) "plus" = some "+" ∧
    getVariable (clearVariables (addVariable initialVariables "x" "5").1) "^" = some "^" ∧
    (("+", "+") ∈ clearVariables [("+", "+"), ("x", "5")] ↔
      (("+", "+") ∈ ([("+", "+"), ("x", "5")] : Store) ∧ isOperatorValue "+" = true)) :=
  ⟨c8_reset_preserves_operator_entries.2.2.1 ("+", ["plus", "add"]) (by decide) "plus" (by decide),
   c8_reset_preserves_operator_entries.2.2.2 ("^", ["power", "exponent"]) (by decide),
   c8_reset_preserves_operator_entries.1 [("+", "+"), ("x", "5")] "+" "+"⟩

/-- C9 counterexample: `"foo  bar"` is a non-definition line, none of its
tokens is stored, and it is already trimmed, yet processing collapses the
double space: the output differs from the trimmed input, refuting
`process(x) = x.strip()`. -/
theorem c9_whitespace_collapse_cx :
    (numoBuild initialVariables "foo  bar").1 = "foo bar" ∧
    strTrim "foo  bar" = "foo  bar" ∧
    (processVariableDefinition initialVariables "foo  bar").2.2 = false ∧
    pySplitWs "foo  bar" = ["foo", "bar"] ∧
    dictGet initialVariables "foo" = none ∧
    dictGet initialVariables "bar" = none ∧
    "foo bar" ≠ "foo  bar" :=
  ⟨rfl, rfl, rfl, rfl, rfl, rfl, by decide⟩

/-- C9 (amended): on a non-definition line none of whose tokens matches a
stored entry, the preprocessor returns the line's whitespace-separated
tokens rejoined with single spaces — the identity up to trimming and
internal-whitespace normalization; in particular it equals the trimmed line
whenever the trimmed line's separators are already single spaces. -/
theorem c9_identity_up_to_normalization (st : Store) (x : String)
    (hdef : (processVariableDefinition st (strTrim x)).2.2 = false)
    (hmatch : ∀ t ∈ pySplitWs (strTrim x), dictGet st (strLower t) = none) :
    (numoBuild st x).1 = String.intercalate " " (pySplitWs (strTrim x)) ∧
    (strTrim x = String.intercalate " " (pySplitWs (strTrim x)) →
      (numoBuild st x).1 = strTrim x) := by
  have hmain : (numoBuild st x).1 = String.intercalate " " (pySplitWs (strTrim x)) := by
    by_cases hx : x.isEmpty
    · have hx2 : x = "" := (String.isEmpty_iff x).mp hx
      subst hx2
      simp [numoBuild]
      rfl
    · rcases hp : processVariableDefinition st (strTrim x) with ⟨o, st2, b⟩
      rw [hp] at hdef
      simp at hdef
      subst hdef
      simp only [numoBuild, hx, Bool.false_eq_true, if_false, hp]
      exact replaceVariableReferences_no_match st (strTrim x) hmatch
  exact ⟨hmain, fun h => by rw [hmain, ← h]⟩

/-- C9 witness. -/
theorem c9_identity_up_to_normalization_witness :
    (numoBuild initialVariables "foo bar").1 =
      String.intercalate " " (pySplitWs (strTrim "foo bar")) ∧
    (strTrim "foo bar" = String.intercalate " " (pySplitWs (strTrim "foo bar")) →
      (numoBuild initialVariables "foo bar").1 = strTrim "foo bar") :=
  c9_identity_up_to_normalization initialVariables "foo bar" rfl (by decide)

/-! ### Value lemmas for `MQ`: the operations compute the rational
arithmetic they model. -/

theorem MQ.norm_mk (n : Int) (d : Nat) (hd : 0 < d) :
    (MQ.norm ⟨n, d⟩).toRat = ((n : ℚ) / (d : ℚ)) ∧ (MQ.norm ⟨n, d⟩).wf := by
  have hgpos0 : 0 < Nat.gcd n.natAbs d := Nat.gcd_pos_of_pos_right _ hd
  set g := Nat.gcd n.natAbs d with hg
  have hgpos : 0 < g := hgpos0
  have hgz : ((g : Int)) ≠ 0 := by exact_mod_cast hgpos.ne'
  have hgQ : ((g : ℚ)) ≠ 0 := Nat.cast_ne_zero.mpr hgpos.ne'
  obtain ⟨n2, hn2⟩ : ((g : Int)) ∣ n :=
    Int.dvd_natAbs.mp (Int.natCast_dvd_natCast.mpr (Nat.gcd_dvd_left n.natAbs d))
  obtain ⟨d2, hd2⟩ : g ∣ d := Nat.gcd_dvd_right n.natAbs d
  have hnum : n / (g : Int) = n2 := by
    rw [hn2]
    exact Int.mul_ediv_cancel_left _ hgz
  have hden : d / g = d2 := by
    rw [hd2]
    exact Nat.mul_div_cancel_left _ hgpos
  have hd2pos : 0 < d2 := by
    rcases Nat.eq_zero_or_pos d2 with h0 | h0
    · subst h0
      rw [Nat.mul_zero] at hd2
      omega
    · exact h0
  have hnorm : MQ.norm ⟨n, d⟩ = ⟨n2, d2⟩ := by
    show (⟨n / (g : Int), d / g⟩ : MQ) = ⟨n2, d2⟩
    rw [hnum, hden]
  constructor
  · rw [hnorm]
    show (n2 : ℚ) / (d2 : ℚ) = (n : ℚ) / (d : ℚ)
    rw [hn2, hd2]
    push_cast
    rw [mul_div_mul_left _ _ hgQ]
  · rw [hnorm]
    exact hd2pos

theorem MQ.toRat_ofInt (n : Int) : (MQ.ofInt n).toRat = (n : ℚ) := by
  simp [MQ.ofInt, MQ.toRat]

theorem MQ.ofInt_wf (n : Int) : (MQ.ofInt n).wf := Nat.one_pos

theorem MQ.add_spec (a b : MQ) (ha : a.wf) (hb : b.wf) :
    (a.add b).toRat = a.toRat + b.toRat ∧ (a.add b).wf := by
  obtain ⟨hval, hwf⟩ := MQ.norm_mk (a.num * (b.den : Int) + b.num * (a.den : Int))
    (a.den * b.den) (Nat.mul_pos ha hb)
  refine ⟨?_, hwf⟩
  show (MQ.norm ⟨a.num * (b.den : Int) + b.num * (a.den : Int), a.den * b.den⟩).toRat = _
  rw [hval, MQ.toRat, MQ.toRat]
  have hda : ((a.den : ℚ)) ≠ 0 := Nat.cast_ne_zero.mpr ha.ne'
  have hdb : ((b.den : ℚ)) ≠ 0 := Nat.cast_ne_zero.mpr hb.ne'
  push_cast
  field_simp

theorem MQ.sub_spec (a b : MQ) (ha : a.wf) (hb : b.wf) :
    (a.sub b).toRat = a.toRat - b.toRat ∧ (a.sub b).wf := by
  obtain ⟨hval, hwf⟩ := MQ.norm_mk (a.num * (b.den : Int) - b.num * (a.den : Int))
    (a.den * b.den) (Nat.mul_pos ha hb)
  refine ⟨?_, hwf⟩
  show (MQ.norm ⟨a.num * (b.den : Int) - b.num * (a.den : Int), a.den * b.den⟩).toRat = _
  rw [hval, MQ.toRat, MQ.toRat]
  have hda : ((a.den : ℚ)) ≠ 0 := Nat.cast_ne_zero.mpr ha.ne'
  have hdb : ((b.den : ℚ)) ≠ 0 := Nat.cast_ne_zero.mpr hb.ne'
  push_cast
  field_simp
  ring

theorem MQ.mul_spec (a b : MQ) (ha : a.wf) (hb : b.wf) :
    (a.mul b).toRat = a.toRat * b.toRat ∧ (a.mul b).wf := by
  obtain ⟨hval, hwf⟩ := MQ.norm_mk (a.num * b.num) (a.den * b.den) (Nat.mul_pos ha hb)
  refine ⟨?_, hwf⟩
  show (MQ.norm ⟨a.num * b.num, a.den * b.den⟩).toRat = _
  rw [hval, MQ.toRat, MQ.toRat]
  have hda : ((a.den : ℚ)) ≠ 0 := Nat.cast_ne_zero.mpr ha.ne'
  have hdb : ((b.den : ℚ)) ≠ 0 := Nat.cast_ne_zero.mpr hb.ne'
  push_cast
  field_simp

theorem MQ.div_spec (a b : MQ) (ha : a.wf) (hb : b.wf) (hb0 : b.num ≠ 0) :
    (a.div b).toRat = a.toRat / b.toRat ∧ (a.div b).wf := by
  have hdenpos : 0 < a.den * b.num.natAbs := Nat.mul_pos ha (Int.natAbs_pos.mpr hb0)
  have hda : ((a.den : ℚ)) ≠ 0 := Nat.cast_ne_zero.mpr ha.ne'
  have hdb : ((b.den : ℚ)) ≠ 0 := Nat.cast_ne_zero.mpr hb.ne'
  have hbq : ((b.num : ℚ)) ≠ 0 := Int.cast_ne_zero.mpr hb0
  by_cases hneg : b.num < 0
  · obtain ⟨hval, hwf⟩ := MQ.norm_mk (-(a.num * (b.den : Int))) (a.den * b.num.natAbs) hdenpos
    refine ⟨?_, by rw [MQ.div, if_pos hneg]; exact hwf⟩
    rw [MQ.div, if_pos hneg, hval, MQ.toRat, MQ.toRat]
    have h2 : ((b.num.natAbs : ℚ)) = -(b.num : ℚ) := by
      rw [Int.cast_natAbs, abs_of_neg hneg]
      push_cast
      ring
    push_cast [h2]
    field_simp
  · obtain ⟨hval, hwf⟩ := MQ.norm_mk (a.num * (b.den : Int)) (a.den * b.num.natAbs) hdenpos
    refine ⟨?_, by rw [MQ.div, if_neg hneg]; exact hwf⟩
    rw [MQ.div, if_neg hneg, hval, MQ.toRat, MQ.toRat]
    have h2 : ((b.num.natAbs : ℚ)) = (b.num : ℚ) := by
      rw [Int.cast_natAbs, abs_of_nonneg (not_lt.mp hneg)]
    push_cast [h2]
    field_simp

theorem MQ.floorQ_spec (q : MQ) : (MQ.floorQ q) = ⌊q.toRat⌋ := by
  rw [MQ.floorQ, MQ.toRat]
  exact (Rat.floor_intCast_div_natCast q.num q.den).symm

theorem MQ.num_eq_zero_iff (q : MQ) (h : q.wf) : q.num = 0 ↔ q.toRat = 0 := by
  rw [MQ.toRat]
  have hd : ((q.den : ℚ)) ≠ 0 := Nat.cast_ne_zero.mpr h.ne'
  constructor
  · intro h0
    rw [h0]
    simp
  · intro h0
    rcases div_eq_zero_iff.mp h0 with h1 | h1
    · exact_mod_cast h1
    · exact absurd h1 hd

theorem MQ.flt_spec (a b : MQ) (ha : a.wf) (hb : b.wf) :
    a.flt b ↔ a.toRat < b.toRat := by
  rw [MQ.flt, MQ.toRat, MQ.toRat]
  have hda : (0 : ℚ) < (a.den : ℚ) := by exact_mod_cast ha
  have hdb : (0 : ℚ) < (b.den : ℚ) := by exact_mod_cast hb
  rw [div_lt_div_iff hda hdb]
  constructor
  · intro h
    exact_mod_cast h
  · intro h
    exact_mod_cast h

theorem MQ.pymod_spec (a b : MQ) (ha : a.wf) (hb : b.wf) (hb0 : b.num ≠ 0) :
    (pymod a b).toRat = a.toRat - b.toRat * ((⌊a.toRat / b.toRat⌋ : Int) : ℚ) ∧
    (pymod a b).wf := by
  obtain ⟨hdval, hdwf⟩ := MQ.div_spec a b ha hb hb0
  have hfl : (MQ.ofInt (MQ.floorQ (a.div b))).toRat = ((⌊a.toRat / b.toRat⌋ : Int) : ℚ) := by
    rw [MQ.toRat_ofInt, MQ.floorQ_spec, hdval]
  obtain ⟨hmval, hmwf⟩ := MQ.mul_spec b (MQ.ofInt (MQ.floorQ (a.div b))) hb (MQ.ofInt_wf _)
  obtain ⟨hsval, hswf⟩ := MQ.sub_spec a _ ha hmwf
  refine ⟨?_, hswf⟩
  rw [pymod, hsval, hmval, hfl]

/-- C3: the `^` operator is exponentiation with the exponent-magnitude
guard.  (a) For an integral exponent `r` with `|r| ≤ 100` (and excluding
Python's `0 ** negative` error) whose result passes the final validity
check, the runner returns the rendering of `l ** r`; (b) whenever the
evaluated exponent satisfies the guard `right > 100 or right < -100`, the
`Pow` node raises `ValueError` (absent after the catch); (c) for positive
denominators that guard is exactly `100 < |exponent value|`; and concretely
`evaluate("2 ^ 3")` renders 8 while `evaluate("2 ^ 1000")` is absent (via
the spec's `^`-as-exponentiation surface mapping, `specEvaluate`). -/
theorem c3_pow_exponent_guard :
    (∀ l r : MQ, r.den = 1 → -100 ≤ r.num → r.num ≤ 100 → ¬(l.num = 0 ∧ r.num < 0) →
      isValidNumber (l.powInt r.num) = true →
      mathRunAst (.binop .pow (.const (.cfloat l)) (.const (.cfloat r))) =
        some (pyFloatStr (l.powInt r.num))) ∧
    (∀ (el er : PyExpr) (a b : MQ), evaluateNode el = .ok a → evaluateNode er = .ok b →
      ((MQ.ofInt 100).flt b ∨ b.flt (MQ.ofInt (-100))) →
      evaluateNode (.binop .pow el er) = .error .valueErr) ∧
    (∀ b : MQ, b.wf → (((MQ.ofInt 100).flt b ∨ b.flt (MQ.ofInt (-100))) ↔ 100 < |b.toRat|)) ∧
    specEvaluate "2 ^ 3" = some "8.0" ∧
    specEvaluate "2 ^ 1000" = none := by
  refine ⟨?_, ?_, ?_, rfl, rfl⟩
  · intro l r hden hlo hhi hz hv
    have h100 : ¬ (MQ.ofInt 100).flt r := by
      simp only [MQ.flt, MQ.ofInt, hden]
      omega
    have hm100 : ¬ r.flt (MQ.ofInt (-100)) := by
      simp only [MQ.flt, MQ.ofInt, hden]
      omega
    have hguard : ¬(PyBinop.pow = PyBinop.pow ∧
        ((MQ.ofInt 100).flt r ∨ r.flt (MQ.ofInt (-100)))) := by
      intro h
      rcases h.2 with h2 | h2
      · exact h100 h2
      · exact hm100 h2
    have heval : evaluateNode (.binop .pow (.const (.cfloat l)) (.const (.cfloat r))) =
        .ok (l.powInt r.num) := by
      show (if PyBinop.pow = PyBinop.pow ∧ ((MQ.ofInt 100).flt r ∨ r.flt (MQ.ofInt (-100)))
            then (Except.error PyErr.valueErr : Except PyErr MQ) else pypow l r) =
          .ok (l.powInt r.num)
      rw [if_neg hguard]
      simp only [pypow]
      rw [if_pos hden, if_neg hz]
    have hsafe : isSafeRoot (.binop .pow (.const (.cfloat l)) (.const (.cfloat r))) = true := rfl
    simp [mathRunAst, hsafe, heval, hv]
  · intro el er a b hl hr hor
    have : evaluateNode (.binop .pow el er) =
        (if PyBinop.pow = PyBinop.pow ∧ ((MQ.ofInt 100).flt b ∨ b.flt (MQ.ofInt (-100)))
         then (Except.error PyErr.valueErr : Except PyErr MQ) else pypow a b) := by
      simp only [evaluateNode, hl, hr]
      rfl
    rw [this, if_pos ⟨rfl, hor⟩]
  · intro b hwf
    rw [MQ.flt_spec _ _ (MQ.ofInt_wf 100) hwf, MQ.flt_spec _ _ hwf (MQ.ofInt_wf (-100)),
      MQ.toRat_ofInt, MQ.toRat_ofInt]
    push_cast
    rw [lt_abs]
    constructor
    · rintro (h | h)
      · exact Or.inl h
      · exact Or.inr (by linarith)
    · rintro (h | h)
      · exact Or.inl h
      · exact Or.inr (by linarith)

/-- C3 witness. -/
theorem c3_pow_exponent_guard_witness :
    mathRunAst (.binop .pow (.const (.cfloat (MQ.ofInt 3))) (.const (.cfloat (MQ.ofInt 2)))) =
      some (pyFloatStr ((MQ.ofInt 3).powInt 2)) ∧
    evaluateNode (.binop .pow (.const (.cfloat (MQ.ofInt 2))) (.const (.cfloat (MQ.ofInt 1000)))) =
      .error .valueErr ∧
    (((MQ.ofInt 100).flt (MQ.ofInt 101) ∨ (MQ.ofInt 101).flt (MQ.ofInt (-100))) ↔
      100 < |(MQ.ofInt 101).toRat|) :=
  ⟨c3_pow_exponent_guard.1 (MQ.ofInt 3) (MQ.ofInt 2) rfl (by decide) (by decide)
      (by decide) (by rfl),
   c3_pow_exponent_guard.2.1 _ _ (MQ.ofInt 2) (MQ.ofInt 1000) rfl rfl (Or.inl (by decide)),
   c3_pow_exponent_guard.2.2.1 (MQ.ofInt 101) (MQ.ofInt_wf 101)⟩

/-- C4 counterexample: evaluating `"-7 % 3"` yields `"2.0"` — the positive
value 2, the sign of the divisor — not the claim's `-1` (negative-or-zero,
sign of the dividend). -/
theorem c4_mod_sign_cx :
    mathRun "-7 % 3" = some "2.0" ∧
    pymod (MQ.ofInt (-7)) (MQ.ofInt 3) = MQ.ofInt 2 ∧
    "2.0" ≠ pyFloatStr (MQ.ofInt (-1)) ∧
    (0 : ℚ) < (MQ.ofInt 2).toRat := by
  refine ⟨rfl, rfl, by decide, ?_⟩
  rw [MQ.toRat_ofInt]
  norm_num

/-- C4 (amended): for numbers `a` and `b` with `b ≠ 0`, evaluating `a % b`
returns Python's floored modulo `a - b * floor(a / b)`, whose sign matches
the divisor `b` (or is zero): positive divisors give a result in `[0, b)`,
negative divisors a result in `(b, 0]`; `"-7 % 3"` evaluates to `2.0`. -/
theorem c4_mod_sign_of_divisor (a b : MQ) (ha : a.wf) (hb : b.wf) (hb0 : b.num ≠ 0) :
    evaluateNode (.binop .mod (.const (.cfloat a)) (.const (.cfloat b))) = .ok (pymod a b) ∧
    (pymod a b).toRat = a.toRat - b.toRat * ((⌊a.toRat / b.toRat⌋ : Int) : ℚ) ∧
    (0 < b.toRat → 0 ≤ (pymod a b).toRat ∧ (pymod a b).toRat < b.toRat) ∧
    (b.toRat < 0 → b.toRat < (pymod a b).toRat ∧ (pymod a b).toRat ≤ 0) ∧
    mathRun "-7 % 3" = some (pyFloatStr (pymod (MQ.ofInt (-7)) (MQ.ofInt 3))) ∧
    pymod (MQ.ofInt (-7)) (MQ.ofInt 3) = MQ.ofInt 2 := by
  obtain ⟨hval, hwf⟩ := MQ.pymod_spec a b ha hb hb0
  have hbne : b.toRat ≠ 0 := fun h => hb0 ((MQ.num_eq_zero_iff b hb).mpr h)
  have hr : (pymod a b).toRat = b.toRat * Int.fract (a.toRat / b.toRat) := by
    rw [hval, Int.fract, mul_sub, mul_comm b.toRat (a.toRat / b.toRat),
      div_mul_cancel₀ _ hbne]
  have hf0 := Int.fract_nonneg (a.toRat / b.toRat)
  have hf1 := Int.fract_lt_one (a.toRat / b.toRat)
  refine ⟨?_, hval, ?_, ?_, rfl, rfl⟩
  · show (if b.num = 0 then (Except.error PyErr.zeroDiv : Except PyErr MQ)
          else Except.ok (pymod a b)) = Except.ok (pymod a b)
    exact if_neg hb0
  · intro hy
    rw [hr]
    constructor
    · exact mul_nonneg hy.le hf0
    · nlinarith
  · intro hy
    rw [hr]
    constructor
    · nlinarith
    · nlinarith

/-- C4 witness. -/
theorem c4_mod_sign_of_divisor_witness :
    evaluateNode (.binop .mod (.const (.cfloat (MQ.ofInt (-7)))) (.const (.cfloat (MQ.ofInt 3)))) =
      .ok (pymod (MQ.ofInt (-7)) (MQ.ofInt 3)) ∧
    mathRun "-7 % 3" = some (pyFloatStr (pymod (MQ.ofInt (-7)) (MQ.ofInt 3))) :=
  ⟨(c4_mod_sign_of_divisor (MQ.ofInt (-7)) (MQ.ofInt 3) (MQ.ofInt_wf _) (MQ.ofInt_wf _)
      (by decide)).1,
   (c4_mod_sign_of_divisor (MQ.ofInt (-7)) (MQ.ofInt 3) (MQ.ofInt_wf _) (MQ.ofInt_wf _)
      (by decide)).2.2.2.2.1⟩

/-! ### Substitution helper: token replacement as `Option.getD`. -/

theorem replaceVariableReferences_eq_getD (st : Store) (s : String) :
    replaceVariableReferences st s =
      String.intercalate " " ((pySplitWs s).map (fun t => (dictGet st (strLower t)).getD t)) := by
  unfold replaceVariableReferences
  congr 1
  apply List.map_congr_left
  intro t _
  cases dictGet st (strLower t) <;> rfl

/-- C5 counterexample: preprocessing `"x := 5"` splits at the first `:` and
leaves the `=` inside the value: the line's output is `"x = = 5"`, the store
maps `x` to `"= 5"`, and a subsequent `"x + 1"` substitutes to `"= 5 + 1"` —
not the claim's `"x = 5"` and `"5 + 1"`. -/
theorem c5_walrus_assignment_cx :
    (numoBuild initialVariables "x := 5").1 = "x = = 5" ∧
    dictGet (numoBuild initialVariables "x := 5").2 "x" = some "= 5" ∧
    (numoBuild (numoBuild initialVariables "x := 5").2 "x + 1").1 = "= 5 + 1" ∧
    "x = = 5" ≠ "x = 5" ∧
    "= 5 + 1" ≠ "5 + 1" :=
  ⟨rfl, rfl, rfl, by decide, by decide⟩

/-- C5 (amended): assignment preprocessing, for a store that does not bind
the tokens `=`, `5`, `1` and binds `+` to itself. A `name = expr` line
behaves as the claim states: `"x = 5"` defines `x` as `"5"`, outputs
`"x = 5"`, and a later `"x + 1"` substitutes to `"5 + 1"`.  A `name := expr`
line is recognized as an assignment, but the split at the first `:` leaves
`"= expr"` as the value: `"x := 5"` defines `x` as `"= 5"`, outputs
`"x = = 5"`, and a later `"x + 1"` substitutes to `"= 5 + 1"`. -/
theorem c5_assignment_processing (st : Store)
    (heq : dictGet st "=" = none) (h5 : dictGet st "5" = none)
    (hplus : dictGet st "+" = some "+") (h1 : dictGet st "1" = none) :
    processVariableDefinition st "x = 5" = ("x = 5", dictSet st "x" "5", true) ∧
    replaceVariableReferences (dictSet st "x" "5") "x + 1" = "5 + 1" ∧
    processVariableDefinition st "x := 5" = ("x = = 5", dictSet st "x" "= 5", true) ∧
    replaceVariableReferences (dictSet st "x" "= 5") "x + 1" = "= 5 + 1" := by
  have hv5 : replaceVariableReferences st "5" = "5" := by
    rw [replaceVariableReferences_eq_getD, show pySplitWs "5" = ["5"] from rfl]
    simp only [List.map_cons, List.map_nil, show strLower "5" = "5" from rfl, h5, Option.getD]
    rfl
  have hveq5 : replaceVariableReferences st "= 5" = "= 5" := by
    rw [replaceVariableReferences_eq_getD, show pySplitWs "= 5" = ["=", "5"] from rfl]
    simp only [List.map_cons, List.map_nil, show strLower "=" = "=" from rfl,
      show strLower "5" = "5" from rfl, heq, h5, Option.getD]
    rfl
  have hsubst5 : replaceVariableReferences (dictSet st "x" "5") "x + 1" = "5 + 1" := by
    rw [replaceVariableReferences_eq_getD, show pySplitWs "x + 1" = ["x", "+", "1"] from rfl]
    simp only [List.map_cons, List.map_nil, show strLower "x" = "x" from rfl,
      show strLower "+" = "+" from rfl, show strLower "1" = "1" from rfl,
      dictGet_dictSet_self, dictGet_dictSet_ne st "x" "5" "+" (by decide),
      dictGet_dictSet_ne st "x" "5" "1" (by decide), hplus, h1, Option.getD]
    rfl
  have hsubstEq5 : replaceVariableReferences (dictSet st "x" "= 5") "x + 1" = "= 5 + 1" := by
    rw [replaceVariableReferences_eq_getD, show pySplitWs "x + 1" = ["x", "+", "1"] from rfl]
    simp only [List.map_cons, List.map_nil, show strLower "x" = "x" from rfl,
      show strLower "+" = "+" from rfl, show strLower "1" = "1" from rfl,
      dictGet_dictSet_self, dictGet_dictSet_ne st "x" "= 5" "+" (by decide),
      dictGet_dictSet_ne st "x" "= 5" "1" (by decide), hplus, h1, Option.getD]
    rfl
  refine ⟨?_, ?_, ?_, ?_⟩
  · simp only [processVariableDefinition, show containsChar "x = 5" ':' = false from rfl,
      Bool.false_eq_true, if_false, show splitOnceChar "x = 5" '=' = some ("x ", " 5") from rfl,
      show strTrim "x " = "x" from rfl, show strTrim " 5" = "5" from rfl,
      show validateVariableName "x" = true from rfl, if_true, hv5,
      show strLower "x" = "x" from rfl]
    rfl
  · exact hsubst5
  · simp only [processVariableDefinition, show containsChar "x := 5" ':' = true from rfl,
      if_true, show splitOnceChar "x := 5" ':' = some ("x ", "= 5") from rfl,
      show strTrim "x " = "x" from rfl, show strTrim "= 5" = "= 5" from rfl,
      show validateVariableName "x" = true from rfl, hveq5,
      show strLower "x" = "x" from rfl]
    rfl
  · exact hsubstEq5

/-- C5 witness. -/
theorem c5_assignment_processing_witness :
    processVariableDefinition initialVariables "x = 5" =
      ("x = 5", dictSet initialVariables "x" "5", true) ∧
    replaceVariableReferences (dictSet initialVariables "x" "5") "x + 1" = "5 + 1" ∧
    processVariableDefinition initialVariables "x := 5" =
      ("x = = 5", dictSet initialVariables "x" "= 5", true) ∧
    replaceVariableReferences (dictSet initialVariables "x" "= 5") "x + 1" = "= 5 + 1" :=
  c5_assignment_processing initialVariables rfl rfl rfl rfl

/-- C7: `calculate` is positionally aligned and order-preserving — for
non-raising runners it yields exactly one optional result per input line —
and lines are preprocessed in input order through the shared store, so
`calculate(["x = 5", "x + 1"])` preprocesses the second line to `"5 + 1"`
(using the definition made by the first) and returns `[some "5", some "6"]`,
whose second element parses to 6. -/
theorem c7_calculate_alignment :
    (∀ (runners : List Runner) (st : Store) (lines : List String),
      (∀ r ∈ runners, ∀ s, ∃ v, r s = Except.ok v) →
      ∃ res, numoCalculate runners st lines = Except.ok res ∧ res.length = lines.length) ∧
    (preprocessLines initialVariables ["x = 5", "x + 1"]).2 = ["x = 5", "5 + 1"] ∧
    numoCalculate appRunners initialVariables ["x = 5", "x + 1"] =
      .ok [some "5", some "6"] := by
  refine ⟨?_, rfl, rfl⟩
  intro runners st lines h
  obtain ⟨res, hres, hlen⟩ := executeRunners_ok runners (preprocessLines st lines).2 h
  exact ⟨res, hres, by rw [hlen, preprocessLines_length]⟩

/-- C7 witness. -/
theorem c7_calculate_alignment_witness :
    ∃ res, numoCalculate appRunners initialVariables ["x = 5", "x + 1"] = Except.ok res ∧
      res.length = 2 := by
  refine c7_calculate_alignment.1 appRunners initialVariables ["x = 5", "x + 1"] ?_
  intro r hr s
  simp only [appRunners, List.mem_cons, List.not_mem_nil, or_false] at hr
  rcases hr with rfl | rfl | rfl | rfl | rfl
  · exact ⟨none, rfl⟩
  · exact ⟨none, rfl⟩
  · exact ⟨none, rfl⟩
  · exact ⟨oldMathRun s, rfl⟩
  · exact ⟨variableRunMatch s, rfl⟩

/-- Any string of the form `p ++ ".0"` ends in the characters `.` `0`; the
reversed-prefix encoding used below is therefore exactly "carries a trailing
`.0`". -/
theorem trailing_dot_zero_encoding (p : String) :
    (p ++ ".0").data.reverse.take 2 = ['0', '.'] := by
  rw [String.data_append]
  rw [show (".0" : String).data = ['.', '0'] from rfl]
  simp

/-- C10 counterexample: the integral result `10^16` renders in Python's
scientific notation `"1e+16"`, which does not end in `".0"` — refuting the
claim that every integer-valued successful result carries a trailing
`".0"`. -/
theorem c10_large_integral_rendering_cx :
    mathRun "10000000000000000" = some "1e+16" ∧
    pyParse "10000000000000000" = some (.const (.cint 10000000000000000)) ∧
    "1e+16".data.reverse.take 2 ≠ ['0', '.'] ∧
    "1e+16" ≠ "10000000000000000.0" :=
  ⟨rfl, rfl, by decide, by decide⟩

/-- C10 (amended): every successful result of the safe evaluator is the
Python `str()` rendering of a validated double value (literals are coerced
through `float` before computing); integer-valued results of magnitude
below `10^16` carry a trailing `".0"` (larger magnitudes render in exponent
notation); `evaluate("2 + 2")` returns `"4.0"`, never `"4"`. -/
theorem c10_float_rendering :
    (∀ s out, mathRun s = some out → ∃ q, isValidNumber q = true ∧ out = pyFloatStr q) ∧
    (∀ q : MQ, q.den = 1 → q.num.natAbs < 10 ^ 16 → ∃ p, pyFloatStr q = p ++ ".0") ∧
    mathRun "2 + 2" = some "4.0" ∧
    "4.0" ≠ "4" := by
  refine ⟨?_, ?_, rfl, by decide⟩
  · intro s out h
    unfold mathRun at h
    by_cases h1 : s.isEmpty = true
    · rw [if_pos h1] at h
      exact Option.noConfusion h
    rw [if_neg h1] at h
    by_cases h2 : s.length > 1000
    · rw [if_pos h2] at h
      exact Option.noConfusion h
    rw [if_neg h2] at h
    cases hp : pyParse s with
    | none =>
      rw [hp] at h
      exact Option.noConfusion h
    | some e =>
      rw [hp] at h
      change mathRunAst e = some out at h
      unfold mathRunAst at h
      by_cases hs : isSafeRoot e = true
      · rw [if_pos hs] at h
        cases hev : evaluateNode e with
        | error pe =>
          rw [hev] at h
          exact Option.noConfusion h
        | ok q =>
          rw [hev] at h
          change (if isValidNumber q = true then some (pyFloatStr q) else none) = some out at h
          by_cases hvq : isValidNumber q = true
          · rw [if_pos hvq] at h
            exact ⟨q, hvq, (Option.some.inj h).symm⟩
          · rw [if_neg hvq] at h
            exact Option.noConfusion h
      · rw [if_neg hs] at h
        exact Option.noConfusion h
  · intro q h1 h2
    refine ⟨(if q.num < 0 then "-" else "") ++ toString q.num.natAbs, ?_⟩
    unfold pyFloatStr
    rw [if_pos h1]
    show (if q.num.natAbs < 10 ^ 16 then
        (if q.num < 0 then "-" else "") ++ toString q.num.natAbs ++ ".0"
      else (if q.num < 0 then "-" else "") ++ sciOfNat q.num.natAbs) = _
    rw [if_pos h2]

/-- C10 witness. -/
theorem c10_float_rendering_witness :
    (∃ q, isValidNumber q = true ∧ "4.0" = pyFloatStr q) ∧
    (∃ p, pyFloatStr (MQ.ofInt 4) = p ++ ".0") :=
  ⟨c10_float_rendering.1 "2 + 2" "4.0" rfl,
   c10_float_rendering.2.1 (MQ.ofInt 4) rfl (by decide)⟩
